import Mathlib

/-!
Verification of the `find-a-meeting` front-end core pipeline
(`src/App.tsx`, `src/types/Meeting.ts`, `src/components/MeetingList.tsx`).

The development shallowly embeds the row validator, the geocode resolver
(with its module-level cache), the catalog builder's batch geocoding step,
the filter engine, the location grouper, and the address display cleanup
helper, and proves the spec's claims about them.

Conventions of the embedding:
* TypeScript strings are Lean `String`s; `===` is `String` equality;
  `toLowerCase`/`trim` are `jsToLower`/`jsTrim` below (the data is ASCII).
* A CSV field that may be absent is an `Option String`; the JavaScript
  truthiness test `x || d` on such a field is `strOr` below (both a missing
  field and the empty string are falsy).
* Coordinates are pairs of rationals (the code stores decimal-degree
  numbers parsed by `parseFloat`).
* The TypeScript unions `TimeOfDay` and `MeetingType` are compile-time
  only: `(meeting.time as TimeOfDay)` performs no runtime check, so the
  embedded `Meeting` carries plain strings for `time` and `type`.
-/

set_option autoImplicit false

namespace FindAMeeting

/-- Latitude/longitude pair, as stored by the code (`[number, number]`). -/
abbrev Coord := ℚ × ℚ

/-- Embeds the `Meeting` interface of `src/types/Meeting.ts` (the variant
with `zoomId`, `notes` and `format`).  `time` and `type` are strings
because the TypeScript union types are erased at runtime. -/
structure Meeting where
  name : String
  description : String
  day : String
  time : String
  timeDisplay : String
  type : String
  address : String
  Contact : String
  zoomId : String
  notes : String
  format : String
  coordinates : Option Coord
  deriving DecidableEq, Repr

/-- One raw parsed CSV row as handed to `validateMeeting` by Papa.parse:
an untyped record whose fields may each be absent. -/
structure RawRow where
  name : Option String := none
  description : Option String := none
  day : Option String := none
  time : Option String := none
  timeDisplay : Option String := none
  type : Option String := none
  address : Option String := none
  Contact : Option String := none
  Zoomid : Option String := none
  zoomId : Option String := none
  Notes : Option String := none
  notes : Option String := none
  format : Option String := none
  coordinates : Option Coord := none
  deriving DecidableEq, Repr

/-- JavaScript `x || d` for a string field that may be absent: a missing
field and the empty string are both falsy. -/
def strOr (v : Option String) (d : String) : String :=
  match v with
  | none => d
  | some s => if s = "" then d else s

/-- JavaScript `\s` on the character set these addresses use. -/
def isJsWS (c : Char) : Bool :=
  c = ' ' ∨ c = '\t' ∨ c = '\n' ∨ c = '\r' ∨ c = '\x0b' ∨ c = '\x0c' ∨ c = ' '

/-- Greedy `\s*`. -/
def dropWS (l : List Char) : List Char := l.dropWhile isJsWS

/-- JavaScript `String.prototype.trim` on the character list. -/
def trimChars (l : List Char) : List Char :=
  ((l.dropWhile isJsWS).reverse.dropWhile isJsWS).reverse

/-- JavaScript `String.prototype.trim`. -/
def jsTrim (s : String) : String :=
  String.mk (trimChars s.data)

/-- JavaScript `String.prototype.toLowerCase` (the data is ASCII). -/
def jsToLower (s : String) : String :=
  String.mk (s.data.map Char.toLower)

/-- Embeds `validateMeeting` (App.tsx lines 536-553): reject when the row
is missing or `name` is falsy or blank after trimming; otherwise build the
`Meeting` with `||`-defaults (`time` defaults to `"morning"`, `type` to
`"in-Person"`, `zoomId` prefers the `Zoomid` alias, `notes` the `Notes`
alias). -/
def validateMeeting (row : Option RawRow) : Option Meeting :=
  match row with
  | none => none
  | some m =>
    match m.name with
    | none => none
    | some n =>
      if jsTrim n = "" then none
      else some {
        name := jsTrim n
        description := strOr m.description ""
        day := strOr m.day ""
        time := strOr m.time "morning"
        timeDisplay := strOr m.timeDisplay ""
        type := strOr m.type "in-Person"
        address := strOr m.address ""
        Contact := strOr m.Contact ""
        zoomId := strOr m.Zoomid (strOr m.zoomId "")
        notes := strOr m.Notes (strOr m.notes "")
        format := strOr m.format ""
        coordinates := m.coordinates }

/-! ### The geocoding cache

`geocodingCache` (App.tsx lines 373-395) is a `Map<string, [number,number] | null>`.
We embed it as an insertion-ordered association list: an entry `(a, some c)`
is a successful resolution, `(a, none)` a cached `null`. -/

/-- The resolver's cache: address to resolved coordinates or cached `null`. -/
abbrev Cache := List (String × Option Coord)

/-- Embeds `Map.get`: the value at a key, or `none` when the key is absent. -/
def cacheLookup (cache : Cache) (a : String) : Option (Option Coord) :=
  match cache with
  | [] => none
  | e :: rest => if e.1 = a then some e.2 else cacheLookup rest a

/-- Embeds `Map.has`. -/
def cacheHas (cache : Cache) (a : String) : Bool :=
  (cacheLookup cache a).isSome

/-- Embeds `Map.set`: overwrite in place when the key exists, else append. -/
def cacheSet (cache : Cache) (a : String) (v : Option Coord) : Cache :=
  match cache with
  | [] => [(a, v)]
  | e :: rest => if e.1 = a then (a, v) :: rest else e :: cacheSet rest a v

/-- Embeds `preloadedCoordinates` (App.tsx lines 377-390): the seed of
known Maine addresses. -/
def preloadedCoordinates : List (String × Coord) :=
  [("515 Woodford Street, Portland, ME 04103", (43.6591, -70.2568)),
   ("279 Congress St, Portland, ME 04101", (43.6578, -70.2583)),
   ("25 Church Avenue, Peaks Island, ME 04108", (43.6567, -70.2000)),
   ("43 Foreside Rd, Falmouth, ME 04105", (43.7297, -70.2400)),
   ("22 Church Hill Road, Buxton, ME 04093", (43.6378, -70.5189)),
   ("656 US Route 1, Scarborough, ME 04074", (43.5781, -70.3222)),
   ("102 Bishop Street, Portland, ME 04103", (43.6589, -70.2578)),
   ("40 Main St, Freeport, ME 04032", (43.8570, -70.1031)),
   ("15 Casco Street, Portland, ME 04101", (43.6572, -70.2589)),
   ("24 North Raymond Road, Gray, ME 04039", (43.8856, -70.3317)),
   ("301 Cottage Road, South Portland, ME 04106", (43.6411, -70.2406)),
   ("1311 Roosevelt Trail, Raymond, ME 04071", (43.9011, -70.4700))]

/-- The cache as initialized at module load (lines 393-395): every
preloaded address mapped to its seed coordinates. -/
def initialCache : Cache :=
  preloadedCoordinates.map (fun e => (e.1, some e.2))

/-! ### The geocode resolver, one call

`geocodeAddress` (App.tsx lines 491-533) is async and stateful; we embed
one call as a pure function of the cache and of the outcome the network
produces for this address.  The four mutually exclusive outcomes cover the
code's branches exactly. -/

/-- The outcome of the single `fetch` a `geocodeAddress` call could issue:
the network/JSON layer throws, the response is not `response.ok`, the JSON
array has no first element, or a first element with parsed `lat`/`lon`. -/
inductive GeoResponse where
  | netError : GeoResponse
  | badStatus : GeoResponse
  | empty : GeoResponse
  | found : ℚ → ℚ → GeoResponse
  deriving DecidableEq, Repr

/-- What one completed `geocodeAddress` call produced: its return value,
the cache after the call, and whether an external lookup was issued. -/
structure GeoResult where
  result : Option Coord
  cache : Cache
  lookedUp : Bool
  deriving DecidableEq, Repr

/-- Embeds one call of `geocodeAddress` (lines 491-533).  A falsy address
returns `null` before touching the cache; a cache hit returns the cached
value with no lookup; otherwise the single fetch happens and every
outcome, success or failure, is written to the cache (`null` for the
three failure shapes). -/
def geocodeAddress (cache : Cache) (address : String) (resp : GeoResponse) : GeoResult :=
  if address = "" then ⟨none, cache, false⟩
  else
    match cacheLookup cache address with
    | some v => ⟨v, cache, false⟩
    | none =>
      match resp with
      | .netError => ⟨none, cacheSet cache address none, true⟩
      | .badStatus => ⟨none, cacheSet cache address none, true⟩
      | .empty => ⟨none, cacheSet cache address none, true⟩
      | .found la lo => ⟨some (la, lo), cacheSet cache address (some (la, lo)), true⟩

/-- The cache after a sequence of further completed `geocodeAddress`
calls, each on some address with some network outcome. -/
def runCalls (cache : Cache) : List (String × GeoResponse) → Cache
  | [] => cache
  | (a, r) :: rest => runCalls (geocodeAddress cache a r).cache rest

/-! ### The catalog builder's batch geocoding step

App.tsx lines 584-605.  The code collects `addressesToGeocode` by
filtering the validated meetings (keeping duplicates) and runs
`Promise.all(addressesToGeocode.map(address => geocodeAddress(address)))`.
Because every call in that batch runs its synchronous prefix - including
the `geocodingCache.has` check - before any response continuation can
write to the cache, every listed address misses the cache and issues
exactly one external request: one fetch per list element, duplicates
included.  The continuations then each write `svc a` for their address;
with a deterministic service `svc` the writes are idempotent, so the
final cache does not depend on the completion order and we fold them in
list order. -/

/-- Embeds lines 586-588: the addresses, duplicates kept, of validated
meetings whose address is non-empty and not yet cached. -/
def addressesToGeocode (cache : Cache) (parsed : List Meeting) : List String :=
  (parsed.filter (fun m => m.address ≠ "" ∧ ¬cacheHas cache m.address)).map (fun m => m.address)

/-- The number of external lookups the batch issues for one address:
one per occurrence in `addressesToGeocode` (see the section comment). -/
def lookupCount (cache : Cache) (parsed : List Meeting) (a : String) : ℕ :=
  (addressesToGeocode cache parsed).count a

/-- The cache once every lookup of the batch has completed, the external
service answering `svc a` for address `a`. -/
def cacheAfterBatch (svc : String → Option Coord) (cache : Cache) (parsed : List Meeting) : Cache :=
  (addressesToGeocode cache parsed).foldl (fun c a => cacheSet c a (svc a)) cache

/-- Embeds lines 597-605: each meeting with a non-empty address gets
`geocodingCache.get(meeting.address) || null` as its coordinates; the
rest are pushed unchanged. -/
def attachCoordinates (cache : Cache) (parsed : List Meeting) : List Meeting :=
  parsed.map (fun m =>
    if m.address ≠ "" then { m with coordinates := (cacheLookup cache m.address).join }
    else m)

/-- The whole catalog build for one CSV load: validate the rows, run the
batch geocoding against the service `svc` starting from `cache`, attach
coordinates; returns the catalog and the cache left behind. -/
def buildCatalog (svc : String → Option Coord) (cache : Cache) (rows : List (Option RawRow)) :
    List Meeting × Cache :=
  let parsed := rows.filterMap validateMeeting
  let cache' := cacheAfterBatch svc cache parsed
  (attachCoordinates cache' parsed, cache')

/-! ### The filter engine

App.tsx lines 629-665: four independently optional criteria applied as a
chain of `Array.filter`s, then the defensive empty-name drop.  An unset
criterion is the empty string (the `<Select>` value for "All ..."). -/

/-- The user-selected filter values; `""` means the criterion is unset. -/
structure Criteria where
  selectedDay : String := ""
  selectedTime : String := ""
  selectedType : String := ""
  selectedFormat : String := ""
  deriving DecidableEq, Repr

/-- No criterion set. -/
def noCriteria : Criteria := {}

/-- Embeds the filtering effect (lines 629-665): each truthy selection
adds one `filter` pass - `day` and `format` compared lowercased, `time`
and `type` compared exactly - followed by the drop of meetings whose name
is falsy or blank after trimming. -/
def applyFilters (meetings : List Meeting) (c : Criteria) : List Meeting :=
  let f1 := if c.selectedDay ≠ "" then
      meetings.filter (fun m => jsToLower m.day = jsToLower c.selectedDay) else meetings
  let f2 := if c.selectedTime ≠ "" then
      f1.filter (fun m => m.time = c.selectedTime) else f1
  let f3 := if c.selectedType ≠ "" then
      f2.filter (fun m => m.type = c.selectedType) else f2
  let f4 := if c.selectedFormat ≠ "" then
      f3.filter (fun m => jsToLower m.format = jsToLower c.selectedFormat) else f3
  f4.filter (fun m => m.name ≠ "" ∧ jsTrim m.name ≠ "")

/-- The day criterion is unset or matches case-insensitively. -/
def dayOK (c : Criteria) (m : Meeting) : Bool :=
  c.selectedDay = "" ∨ jsToLower m.day = jsToLower c.selectedDay

/-- The time criterion is unset or matches exactly. -/
def timeOK (c : Criteria) (m : Meeting) : Bool :=
  c.selectedTime = "" ∨ m.time = c.selectedTime

/-- The type criterion is unset or matches exactly. -/
def typeOK (c : Criteria) (m : Meeting) : Bool :=
  c.selectedType = "" ∨ m.type = c.selectedType

/-- The format criterion is unset or matches case-insensitively. -/
def formatOK (c : Criteria) (m : Meeting) : Bool :=
  c.selectedFormat = "" ∨ jsToLower m.format = jsToLower c.selectedFormat

/-- The defensive non-blank-name check of the last filter pass. -/
def nameOK (m : Meeting) : Bool :=
  m.name ≠ "" ∧ jsTrim m.name ≠ ""

/-- One meeting against one criteria record, as a single conjunctive
predicate: every set criterion must match, plus the defensive non-blank
name check.  This is the specification-side restatement the engine is
proved equal to. -/
def matchesCriteria (c : Criteria) (m : Meeting) : Bool :=
  dayOK c m && (timeOK c m && (typeOK c m && (formatOK c m && nameOK m)))

/-- Pointwise combination of two criteria records, each axis taking the
set value (preferring the first). -/
def mergeCriteria (c₁ c₂ : Criteria) : Criteria where
  selectedDay := if c₁.selectedDay = "" then c₂.selectedDay else c₁.selectedDay
  selectedTime := if c₁.selectedTime = "" then c₂.selectedTime else c₁.selectedTime
  selectedType := if c₁.selectedType = "" then c₂.selectedType else c₁.selectedType
  selectedFormat := if c₁.selectedFormat = "" then c₂.selectedFormat else c₁.selectedFormat

/-- Two criteria records set disjoint axes (so their combination is
unambiguous). -/
def disjointAxes (c₁ c₂ : Criteria) : Prop :=
  (c₁.selectedDay = "" ∨ c₂.selectedDay = "") ∧
  (c₁.selectedTime = "" ∨ c₂.selectedTime = "") ∧
  (c₁.selectedType = "" ∨ c₂.selectedType = "") ∧
  (c₁.selectedFormat = "" ∨ c₂.selectedFormat = "")

instance (c₁ c₂ : Criteria) : Decidable (disjointAxes c₁ c₂) := by
  unfold disjointAxes; infer_instance

/-! ### The location grouper

`groupMeetingsByLocation` (App.tsx lines 430-450) walks the meetings,
keeps those with truthy coordinates and non-virtual type (lowercased
comparison) and groups them in a `Map` keyed by the string
`"lat,lng"`, appending each meeting to its key's array; finally the map's
entries are emitted in insertion order and the key parsed back into the
pair.  A JavaScript number's string form determines the number, so two
meetings collide on the key exactly when their coordinate pairs are
equal; we therefore key the association list by the pair itself. -/

/-- A meeting the grouper places on the map: it has coordinates and its
type, lowercased, is not `"virtual"`. -/
def mappable (m : Meeting) : Bool :=
  m.coordinates.isSome ∧ jsToLower m.type ≠ "virtual"

/-- Append a meeting under a coordinate key: push onto the existing
entry, or append a fresh entry at the end (JavaScript `Map` insertion
order). -/
def addToGroup (groups : List (Coord × List Meeting)) (c : Coord) (m : Meeting) :
    List (Coord × List Meeting) :=
  match groups with
  | [] => [(c, [m])]
  | g :: rest => if g.1 = c then (g.1, g.2 ++ [m]) :: rest else g :: addToGroup rest c m

/-- One step of the grouper's `forEach`. -/
def groupStep (groups : List (Coord × List Meeting)) (m : Meeting) :
    List (Coord × List Meeting) :=
  match m.coordinates with
  | some c => if jsToLower m.type ≠ "virtual" then addToGroup groups c m else groups
  | none => groups

/-- Embeds `groupMeetingsByLocation` (lines 430-450). -/
def groupMeetingsByLocation (meetings : List Meeting) : List (Coord × List Meeting) :=
  meetings.foldl groupStep []

/-- The first group with the given coordinates, if any. -/
def findGroup (groups : List (Coord × List Meeting)) (c : Coord) : Option (List Meeting) :=
  match groups with
  | [] => none
  | g :: rest => if g.1 = c then some g.2 else findGroup rest c

/-- The meetings of the input that belong at coordinates `c`: mappable
and located exactly there, in catalog order. -/
def locatedAt (meetings : List Meeting) (c : Coord) : List Meeting :=
  meetings.filter (fun m => m.coordinates = some c ∧ jsToLower m.type ≠ "virtual")

/-- How one coordinate's group grows when further members arrive: an
existing group is extended at the end; a fresh non-empty member list
creates the group. -/
def extendGroup (o : Option (List Meeting)) (l : List Meeting) : Option (List Meeting) :=
  match o with
  | some g => some (g ++ l)
  | none => if l = [] then none else some l

/-! ### The address display cleanup

`cleanAddressDisplay` (App.tsx lines 452-463, duplicated verbatim in
`MeetingList.tsx` lines 40-51) chains four regex replacements and a trim:

1. `/,\s*ME\s+\d{5}(-\d{4})?/gi` replaced by `""` (anywhere, global);
2. `/,\s*Maine\s+\d{5}(-\d{4})?/gi` likewise;
3. `/,\s*ME$/gi` (end-anchored) replaced by `""`;
4. `/,\s*Maine$/gi` likewise; then `.trim()`.

We embed the exact patterns on `List Char`.  Every pattern starts with a
literal `','`, so the scanner only attempts matches at commas; `\s*`/`\s+`
followed by a non-whitespace literal never backtracks usefully, so the
greedy drop of whitespace is exact, and the optional `(-\d{4})?` falls
back to the empty alternative when the four digits are absent, as the
backtracking engine does. -/

/-- `\s+`: at least one whitespace character, then greedily the rest. -/
def matchWSplus : List Char → Option (List Char)
  | [] => none
  | c :: cs => if isJsWS c then some (dropWS cs) else none

/-- Exactly `n` decimal digits. -/
def matchExactDigits : ℕ → List Char → Option (List Char)
  | 0, l => some l
  | _ + 1, [] => none
  | n + 1, c :: cs => if c.isDigit then matchExactDigits n cs else none

/-- A case-insensitive literal (the `/i` flag). -/
def matchCI : List Char → List Char → Option (List Char)
  | [], l => some l
  | _ :: _, [] => none
  | p :: ps, c :: cs => if c.toLower = p.toLower then matchCI ps cs else none

/-- The optional `(-\d{4})?`: greedily take a dash and four digits when
present, otherwise match the empty alternative (the backtracking
fallback). -/
def matchOptDash4 (l : List Char) : Option (List Char) :=
  match l with
  | [] => some []
  | c :: cs =>
    if c = '-' then
      match matchExactDigits 4 cs with
      | some l₆ => some l₆
      | none => some (c :: cs)
    else some (c :: cs)

/-- The part of patterns 1-2 after the comma: `\s*TOK\s+\d{5}(-\d{4})?`
(case-insensitive `TOK`), returning what follows the match. -/
def matchZipTail (tok : List Char) (l : List Char) : Option (List Char) :=
  (matchCI tok (dropWS l)).bind fun l₂ =>
    (matchWSplus l₂).bind fun l₃ =>
      (matchExactDigits 5 l₃).bind fun l₄ => matchOptDash4 l₄

/-- Global replacement by `""` of `,` followed by `matchZipTail tok`,
scanning left to right and resuming after each match, fuelled by the
input length (each step consumes at least one character, so the fuel
never runs out when it starts at the length). -/
def replaceZipAll (tok : List Char) : ℕ → List Char → List Char
  | 0, l => l
  | _ + 1, [] => []
  | fuel + 1, c :: cs =>
    if c = ',' then
      match matchZipTail tok cs with
      | some rest => replaceZipAll tok fuel rest
      | none => c :: replaceZipAll tok fuel cs
    else c :: replaceZipAll tok fuel cs

/-- Whether `,\s*TOK$` matches here: after the comma, optional whitespace,
the token case-insensitively, then the end of the string. -/
def matchTrailTok (tok : List Char) (l : List Char) : Bool :=
  matchCI tok (dropWS l) = some []

/-- Replacement by `""` of the end-anchored `,\s*TOK$` (the engine takes
the leftmost comma where the match reaches the end). -/
def stripTrail (tok : List Char) : List Char → List Char
  | [] => []
  | c :: cs =>
    if c = ',' then
      if matchTrailTok tok cs then [] else c :: stripTrail tok cs
    else c :: stripTrail tok cs

/-- Embeds `cleanAddressDisplay` (App.tsx lines 452-463): the falsy-address
early return, the four replacements in source order, and the final trim. -/
def cleanAddressDisplay (address : String) : String :=
  if address = "" then ""
  else
    let l₀ := address.data
    let l₁ := replaceZipAll ['M', 'E'] l₀.length l₀
    let l₂ := replaceZipAll ['M', 'a', 'i', 'n', 'e'] l₁.length l₁
    let l₃ := stripTrail ['M', 'E'] l₂
    let l₄ := stripTrail ['M', 'a', 'i', 'n', 'e'] l₃
    String.mk (trimChars l₄)

/-- No match of pattern `,` + `matchZipTail tok` starts inside `s` when
the full text is `s ++ t` (a decidable scan used as a hypothesis of the
append lemmas below). -/
def zipFreePrefix (tok : List Char) : List Char → List Char → Bool
  | [], _ => true
  | c :: cs, t =>
    (if c = ',' then (matchZipTail tok (cs ++ t)).isNone else true) && zipFreePrefix tok cs t

/-- No match of the end-anchored `,\s*TOK$` starts inside `s` when the
full text is `s ++ t`. -/
def trailFreePrefix (tok : List Char) : List Char → List Char → Bool
  | [], _ => true
  | c :: cs, t =>
    (if c = ',' then !matchTrailTok tok (cs ++ t) else true) && trailFreePrefix tok cs t

/-- All four cleanup patterns fail everywhere in `s` taken alone: such an
address is only trimmed by `cleanAddressDisplay`. -/
def maineFree (s : String) : Bool :=
  zipFreePrefix ['M', 'E'] s.data [] && zipFreePrefix ['M', 'a', 'i', 'n', 'e'] s.data [] &&
    trailFreePrefix ['M', 'E'] s.data [] && trailFreePrefix ['M', 'a', 'i', 'n', 'e'] s.data []

/-! ### Concrete inputs used by the witnesses and counterexamples -/

/-- Build a `Meeting` with the display-only fields blank. -/
def mkMeeting (name day time type format address : String) (coords : Option Coord) : Meeting :=
  { name := name, description := "", day := day, time := time, timeDisplay := "",
    type := type, address := address, Contact := "", zoomId := "", notes := "",
    format := format, coordinates := coords }

/-- Monday morning in-person meeting at coordinates (1, 2). -/
def demoA : Meeting := mkMeeting "Serenity AM" "monday" "morning" "in-Person" "Regular" "1 Main St" (some (1, 2))

/-- Monday evening in-person meeting at the same coordinates as `demoA`. -/
def demoB : Meeting := mkMeeting "Hope PM" "monday" "evening" "in-Person" "" "1 Main St" (some (1, 2))

/-- A virtual meeting that nevertheless carries coordinates. -/
def demoV : Meeting := mkMeeting "Online Hope" "tuesday" "evening" "virtual" "" "9 Web Way" (some (1, 2))

/-- A meeting with no coordinates. -/
def demoN : Meeting := mkMeeting "No Map" "friday" "morning" "hybrid" "" "" none

/-- A small catalog exercising grouping and filtering. -/
def demoCatalog : List Meeting := [demoA, demoB, demoV, demoN]

/-- A raw row whose name needs trimming. -/
def rowA : RawRow := { name := some "  Alpha  " }

/-- The meeting `validateMeeting` produces from `rowA`. -/
def mA : Meeting := mkMeeting "Alpha" "" "morning" "in-Person" "" "" none

/-- A raw row whose name is blank after trimming. -/
def rowBlank : RawRow := { name := some "   " }

/-- A raw row with a non-empty `time` and `type` outside the closed
enumerations. -/
def rowNoon : RawRow := { name := some "X", time := some "noon", type := some "online" }

/-- The meeting `validateMeeting` produces from `rowNoon`. -/
def mNoon : Meeting := mkMeeting "X" "" "noon" "online" "" "" none

/-- Two valid rows sharing the identical address. -/
def dupRows : List (Option RawRow) :=
  [some { name := some "A", address := some "1 Main St" },
   some { name := some "B", address := some "1 Main St" }]

/-- A single-criterion day selection. -/
def cDayMonday : Criteria := { selectedDay := "monday" }

/-- A single-criterion time selection. -/
def cTimeEvening : Criteria := { selectedTime := "evening" }

/-- The meeting the catalog build produces from the first row of
`dupRows` with a service answering (1, 2). -/
def mDupA : Meeting := mkMeeting "A" "" "morning" "in-Person" "" "1 Main St" (some (1, 2))

/-- The meeting the catalog build produces from the second row of
`dupRows` with a service answering (1, 2). -/
def mDupB : Meeting := mkMeeting "B" "" "morning" "in-Person" "" "1 Main St" (some (1, 2))

/-! ## Lemmas about the cache and the resolver -/

theorem cacheLookup_set_self (c : Cache) (a : String) (v : Option Coord) :
    cacheLookup (cacheSet c a v) a = some v := by
  induction c with
  | nil => simp [cacheSet, cacheLookup]
  | cons e rest ih =>
    by_cases h : e.1 = a <;> simp [cacheSet, cacheLookup, h, ih]

theorem cacheLookup_set_ne (c : Cache) (a b : String) (v : Option Coord) (h : b ≠ a) :
    cacheLookup (cacheSet c a v) b = cacheLookup c b := by
  induction c with
  | nil => simp [cacheSet, cacheLookup, Ne.symm h]
  | cons e rest ih =>
    by_cases he : e.1 = a
    · simp [cacheSet, cacheLookup, he, Ne.symm h]
    · simp [cacheSet, cacheLookup, he, ih]

/-- A `geocodeAddress` call on a cached address is a pure cache hit. -/
theorem geocode_hit (c : Cache) (a : String) (v : Option Coord) (resp : GeoResponse)
    (ha : a ≠ "") (h : cacheLookup c a = some v) :
    geocodeAddress c a resp = ⟨v, c, false⟩ := by
  simp [geocodeAddress, ha, h]

/-- A `geocodeAddress` call never erases an existing cache entry. -/
theorem cacheLookup_geocode_mono (c : Cache) (b : String) (r : GeoResponse) (a : String)
    (v : Option Coord) (h : cacheLookup c a = some v) :
    cacheLookup (geocodeAddress c b r).cache a = some v := by
  by_cases hb : b = ""
  · simp [geocodeAddress, hb, h]
  · cases hcb : cacheLookup c b with
    | some w => simp [geocodeAddress, hb, hcb, h]
    | none =>
      have hab : a ≠ b := by
        intro e
        rw [e, hcb] at h
        exact Option.noConfusion h
      cases r <;> simp [geocodeAddress, hb, hcb, cacheLookup_set_ne _ _ _ _ hab, h]

/-- A sequence of further `geocodeAddress` calls never erases an existing
cache entry. -/
theorem cacheLookup_runCalls_mono (calls : List (String × GeoResponse)) (c : Cache)
    (a : String) (v : Option Coord) (h : cacheLookup c a = some v) :
    cacheLookup (runCalls c calls) a = some v := by
  induction calls generalizing c with
  | nil => exact h
  | cons p rest ih => exact ih _ (cacheLookup_geocode_mono c p.1 p.2 a v h)

/-- After a miss, `geocodeAddress` always caches exactly its own return
value. -/
theorem geocode_caches_result (c : Cache) (a : String) (resp : GeoResponse) (ha : a ≠ "") :
    cacheLookup (geocodeAddress c a resp).cache a = some (geocodeAddress c a resp).result := by
  cases hc : cacheLookup c a with
  | some v => simp [geocodeAddress, ha, hc]
  | none => cases resp <;> simp [geocodeAddress, ha, hc, cacheLookup_set_self]

/-! ## Claim theorems about the resolver -/

/-- C2 (confirmed): once `geocodeAddress` has resolved a non-empty address
(successfully or to `null`), the result is stored in the cache under that
address, and after any sequence of further calls a new resolution of the
same address returns exactly the cached result, performs no external
lookup and leaves the cache unchanged; a `null` result is cached like any
other because `result` ranges over `Option Coord`. -/
theorem resolver_cache_first (cache : Cache) (a : String) (resp : GeoResponse) (ha : a ≠ "") :
    cacheLookup (geocodeAddress cache a resp).cache a = some (geocodeAddress cache a resp).result ∧
    ∀ (calls : List (String × GeoResponse)) (resp' : GeoResponse),
      geocodeAddress (runCalls (geocodeAddress cache a resp).cache calls) a resp' =
        ⟨(geocodeAddress cache a resp).result, runCalls (geocodeAddress cache a resp).cache calls, false⟩ := by
  refine ⟨geocode_caches_result cache a resp ha, fun calls resp' => ?_⟩
  exact geocode_hit _ a _ resp' ha
    (cacheLookup_runCalls_mono calls _ a _ (geocode_caches_result cache a resp ha))

/-- Witness for C2: resolving "1 Main St" on the empty cache with a found
coordinate, then an unrelated failed lookup, then re-resolving "1 Main St"
under a network error still returns the first result from the cache with
no lookup. -/
theorem resolver_cache_first_witness :
    cacheLookup (geocodeAddress [] "1 Main St" (.found 1 2)).cache "1 Main St" =
      some (geocodeAddress [] "1 Main St" (.found 1 2)).result ∧
    geocodeAddress (runCalls (geocodeAddress [] "1 Main St" (.found 1 2)).cache
        [("2 Oak St", .empty)]) "1 Main St" .netError =
      ⟨(geocodeAddress [] "1 Main St" (.found 1 2)).result,
        runCalls (geocodeAddress [] "1 Main St" (.found 1 2)).cache [("2 Oak St", .empty)], false⟩ := by
  have h := resolver_cache_first [] "1 Main St" (.found 1 2) (by decide)
  exact ⟨h.1, h.2 [("2 Oak St", .empty)] .netError⟩

/-- C6 (confirmed): the resolver is a total function of the cache and the
network outcome - the embedding has no exception channel, mirroring the
all-catching `try`/`catch` - and each failure shape (thrown network/JSON
error, non-ok HTTP status, empty result array) resolves an uncached
non-empty address to `null`. -/
theorem resolver_failures_resolve_null (cache : Cache) (a : String) (ha : a ≠ "")
    (hc : cacheLookup cache a = none) :
    (geocodeAddress cache a .netError).result = none ∧
    (geocodeAddress cache a .badStatus).result = none ∧
    (geocodeAddress cache a .empty).result = none := by
  refine ⟨?_, ?_, ?_⟩ <;> simp [geocodeAddress, ha, hc]

/-- Witness for C6: the three failure outcomes on an uncached address. -/
theorem resolver_failures_resolve_null_witness :
    (geocodeAddress [] "1 Main St" .netError).result = none ∧
    (geocodeAddress [] "1 Main St" .badStatus).result = none ∧
    (geocodeAddress [] "1 Main St" .empty).result = none :=
  resolver_failures_resolve_null [] "1 Main St" (by decide) rfl

/-- C10 (confirmed): after any completed call on a non-empty address the
cache holds an entry for that address equal to the call's return value;
a call on the empty address returns `null` immediately, leaving the cache
untouched and issuing no lookup. -/
theorem resolver_postcall_invariant (cache : Cache) (a : String) (resp : GeoResponse) :
    (a ≠ "" → cacheLookup (geocodeAddress cache a resp).cache a =
      some (geocodeAddress cache a resp).result) ∧
    geocodeAddress cache "" resp = ⟨none, cache, false⟩ := by
  exact ⟨fun ha => geocode_caches_result cache a resp ha, by simp [geocodeAddress]⟩

/-- Witness for C10: a failed lookup of "7 Pine St" on the empty cache
caches `null` under that key, and the empty address is a no-op. -/
theorem resolver_postcall_invariant_witness :
    cacheLookup (geocodeAddress [] "7 Pine St" .empty).cache "7 Pine St" =
      some (geocodeAddress [] "7 Pine St" .empty).result ∧
    geocodeAddress [] "" .empty = ⟨none, [], false⟩ := by
  have h := resolver_postcall_invariant [] "7 Pine St" .empty
  exact ⟨h.1 (by decide), h.2⟩

/-! ## Claim theorems about the row validator -/

/-- C3 (confirmed): `validateMeeting` rejects exactly when the row is
missing or its `name` field is missing or blank after trimming (the
empty-name case is subsumed, the trim of `""` is `""`); every accepted row yields a
meeting whose name is the input name trimmed. -/
theorem rowValidator_correct (row : Option RawRow) :
    (validateMeeting row = none ↔
      row = none ∨ row.bind RawRow.name = none ∨ jsTrim ((row.bind RawRow.name).getD "") = "") ∧
    ∀ (r : RawRow) (m : Meeting), row = some r → validateMeeting row = some m →
      ∃ n, r.name = some n ∧ m.name = jsTrim n := by
  cases row with
  | none => simp [validateMeeting]
  | some r =>
    cases hn : r.name with
    | none => simp [validateMeeting, hn]
    | some n =>
      by_cases ht : jsTrim n = ""
      · simp [validateMeeting, hn, ht]
      · constructor
        · simp [validateMeeting, hn, ht]
        · intro r' m hr hv
          cases hr
          refine ⟨n, hn, ?_⟩
          simp [validateMeeting, hn, ht] at hv
          rw [← hv]

/-- Witness for C3: the blank-name row is rejected; the row named
`"  Alpha  "` yields a meeting named `"Alpha"`. -/
theorem rowValidator_correct_witness :
    validateMeeting (some rowBlank) = none ∧
    (validateMeeting (some rowA)).map Meeting.name = some "Alpha" := by
  constructor
  · exact (rowValidator_correct (some rowBlank)).1.mpr (Or.inr (Or.inr (by decide)))
  · have hv : validateMeeting (some rowA) = some mA := by decide
    obtain ⟨n, hn, hname⟩ := (rowValidator_correct (some rowA)).2 rowA mA rfl hv
    have hn2 : n = "  Alpha  " := by
      have h := hn
      rw [show rowA.name = some "  Alpha  " from rfl] at h
      exact (Option.some.inj h).symm
    rw [hv]
    simp only [Option.map_some']
    rw [hname, hn2]
    decide

/-- C7 is false on the code: the casts `(meeting.time as TimeOfDay)` and
`(meeting.type as MeetingType)` check nothing at runtime, so a non-empty
invalid source value survives unchanged - here `time = "noon"` and
`type = "online"` - instead of falling back to the defaults; moreover the
type default literal is `"in-Person"`, not `"in-person"`. -/
theorem validator_defaults_counterexample :
    (validateMeeting (some rowNoon)).map Meeting.time = some "noon" ∧
    (validateMeeting (some rowNoon)).map Meeting.type = some "online" ∧
    "noon" ≠ "morning" ∧ ("online" : String) ≠ "in-person" ∧
    ("online" : String) ≠ "in-Person" := by
  refine ⟨by decide, by decide, by decide, by decide, by decide⟩

/-- C7 (corrected): for every accepted row, `time` is
`"morning"` exactly when the source `time` is absent, empty, or already
`"morning"`, and `type` is `"in-Person"` exactly when the source `type`
is absent, empty, or already `"in-Person"`; any other non-empty source
string - whether or not it belongs to the closed enumerations - is kept
verbatim. -/
theorem validator_defaults_amended (r : RawRow) (m : Meeting)
    (h : validateMeeting (some r) = some m) :
    m.time = strOr r.time "morning" ∧ m.type = strOr r.type "in-Person" ∧
    (m.time = "morning" ↔ r.time = none ∨ r.time = some "" ∨ r.time = some "morning") ∧
    (m.type = "in-Person" ↔ r.type = none ∨ r.type = some "" ∨ r.type = some "in-Person") ∧
    (∀ t, r.time = some t → t ≠ "" → m.time = t) ∧
    (∀ t, r.type = some t → t ≠ "" → m.type = t) := by
  cases hn : r.name with
  | none => simp [validateMeeting, hn] at h
  | some n =>
    by_cases ht : jsTrim n = ""
    · simp [validateMeeting, hn, ht] at h
    · simp [validateMeeting, hn, ht] at h
      subst h
      refine ⟨rfl, rfl, ?_, ?_, ?_, ?_⟩
      · cases hrt : r.time with
        | none => simp [strOr, hrt]
        | some t =>
          by_cases he : t = "" <;> simp [strOr, hrt, he]
      · cases hrt : r.type with
        | none => simp [strOr, hrt]
        | some t =>
          by_cases he : t = "" <;> simp [strOr, hrt, he]
      · intro t htt hne
        simp [strOr, htt, hne]
      · intro t htt hne
        simp [strOr, htt, hne]

/-- Witness for the amended C7: the invalid `"noon"`/`"online"` row keeps
its values, matching the `strOr` characterization. -/
theorem validator_defaults_amended_witness :
    mNoon.time = strOr rowNoon.time "morning" ∧ mNoon.type = strOr rowNoon.type "in-Person" := by
  have h := validator_defaults_amended rowNoon mNoon (by decide)
  exact ⟨h.1, h.2.1⟩

/-! ## Lemmas about the filter engine -/

/-- The sequential filter chain of the effect equals one filter by the
conjunctive predicate. -/
theorem applyFilters_eq_filter (ms : List Meeting) (c : Criteria) :
    applyFilters ms c = ms.filter (matchesCriteria c) := by
  unfold applyFilters matchesCriteria dayOK timeOK typeOK formatOK nameOK
  by_cases hd : c.selectedDay = "" <;> by_cases ht : c.selectedTime = "" <;>
    by_cases hy : c.selectedType = "" <;> by_cases hf : c.selectedFormat = "" <;>
      simp only [hd, ht, hy, hf, ne_eq, not_true_eq_false, not_false_eq_true, if_true, if_false,
        ite_true, ite_false, List.filter_filter, decide_not] <;>
      refine List.filter_congr (fun m _ => ?_) <;>
      simp [Bool.and_comm, Bool.and_left_comm, Bool.and_assoc]

/-- Each axis of a disjoint merge matches exactly when both sides match. -/
theorem dayOK_merge (c₁ c₂ : Criteria) (m : Meeting)
    (h : c₁.selectedDay = "" ∨ c₂.selectedDay = "") :
    dayOK (mergeCriteria c₁ c₂) m = (dayOK c₁ m && dayOK c₂ m) := by
  rcases h with h | h <;>
    by_cases h' : c₁.selectedDay = "" <;>
      simp_all [dayOK, mergeCriteria]

theorem timeOK_merge (c₁ c₂ : Criteria) (m : Meeting)
    (h : c₁.selectedTime = "" ∨ c₂.selectedTime = "") :
    timeOK (mergeCriteria c₁ c₂) m = (timeOK c₁ m && timeOK c₂ m) := by
  rcases h with h | h <;>
    by_cases h' : c₁.selectedTime = "" <;>
      simp_all [timeOK, mergeCriteria]

theorem typeOK_merge (c₁ c₂ : Criteria) (m : Meeting)
    (h : c₁.selectedType = "" ∨ c₂.selectedType = "") :
    typeOK (mergeCriteria c₁ c₂) m = (typeOK c₁ m && typeOK c₂ m) := by
  rcases h with h | h <;>
    by_cases h' : c₁.selectedType = "" <;>
      simp_all [typeOK, mergeCriteria]

theorem formatOK_merge (c₁ c₂ : Criteria) (m : Meeting)
    (h : c₁.selectedFormat = "" ∨ c₂.selectedFormat = "") :
    formatOK (mergeCriteria c₁ c₂) m = (formatOK c₁ m && formatOK c₂ m) := by
  rcases h with h | h <;>
    by_cases h' : c₁.selectedFormat = "" <;>
      simp_all [formatOK, mergeCriteria]

/-- Shuffling a merged conjunction into the conjunction of the two
criteria's predicates, with the shared name check deduplicated. -/
theorem and_merge_shuffle (d₁ d₂ t₁ t₂ y₁ y₂ f₁ f₂ n : Bool) :
    ((d₁ && d₂) && ((t₁ && t₂) && ((y₁ && y₂) && ((f₁ && f₂) && n)))) =
    ((d₁ && (t₁ && (y₁ && (f₁ && n)))) && (d₂ && (t₂ && (y₂ && (f₂ && n))))) := by
  cases n <;> simp [Bool.and_comm, Bool.and_left_comm, Bool.and_assoc]

/-- Matching a disjoint merge is matching both criteria. -/
theorem matchesCriteria_merge (c₁ c₂ : Criteria) (h : disjointAxes c₁ c₂) (m : Meeting) :
    matchesCriteria (mergeCriteria c₁ c₂) m = (matchesCriteria c₁ m && matchesCriteria c₂ m) := by
  obtain ⟨h1, h2, h3, h4⟩ := h
  rw [matchesCriteria, matchesCriteria, matchesCriteria,
    dayOK_merge c₁ c₂ m h1, timeOK_merge c₁ c₂ m h2, typeOK_merge c₁ c₂ m h3,
    formatOK_merge c₁ c₂ m h4, and_merge_shuffle]

/-! ## Claim theorems about the filter engine -/

/-- C8 (confirmed): the engine equals a single conjunctive filter whose
axis predicates compare `day` and `format` case-insensitively (via
lower-casing, i.e. case-insensitive exact match) and `time` and `type` by
exact string equality; a meeting is in the result exactly when it is in
the catalog and satisfies every set criterion (plus the defensive
non-blank-name re-check). -/
theorem filterEngine_conjunctive (ms : List Meeting) (c : Criteria) :
    applyFilters ms c = ms.filter (matchesCriteria c) ∧
    ∀ m, m ∈ applyFilters ms c ↔
      m ∈ ms ∧ dayOK c m = true ∧ timeOK c m = true ∧ typeOK c m = true ∧
        formatOK c m = true ∧ nameOK m = true := by
  refine ⟨applyFilters_eq_filter ms c, fun m => ?_⟩
  rw [applyFilters_eq_filter]
  simp [List.mem_filter, matchesCriteria, and_assoc]

/-- Witness for C8 on the demo catalog with the Monday criterion. -/
theorem filterEngine_conjunctive_witness :
    applyFilters demoCatalog cDayMonday = demoCatalog.filter (matchesCriteria cDayMonday) ∧
    (demoA ∈ applyFilters demoCatalog cDayMonday ↔
      demoA ∈ demoCatalog ∧ dayOK cDayMonday demoA = true ∧ timeOK cDayMonday demoA = true ∧
        typeOK cDayMonday demoA = true ∧ formatOK cDayMonday demoA = true ∧ nameOK demoA = true) :=
  ⟨(filterEngine_conjunctive demoCatalog cDayMonday).1,
    (filterEngine_conjunctive demoCatalog cDayMonday).2 demoA⟩

/-- C4 (confirmed): with no criterion set the engine returns the catalog
unchanged but for the defensive drop of blank-name meetings, and for any
two criteria records on disjoint axes, applying both together returns
exactly the order-preserving intersection of the two single-criteria
results. -/
theorem filterEngine_identity_and_intersection :
    (∀ ms : List Meeting, applyFilters ms noCriteria = ms.filter nameOK) ∧
    ∀ (ms : List Meeting) (c₁ c₂ : Criteria), disjointAxes c₁ c₂ →
      applyFilters ms (mergeCriteria c₁ c₂) =
        (applyFilters ms c₁).filter (fun m => m ∈ applyFilters ms c₂) := by
  constructor
  · intro ms
    rw [applyFilters_eq_filter]
    refine List.filter_congr (fun m _ => ?_)
    simp [matchesCriteria, noCriteria, dayOK, timeOK, typeOK, formatOK, nameOK]
  · intro ms c₁ c₂ h
    rw [applyFilters_eq_filter, applyFilters_eq_filter, applyFilters_eq_filter,
      List.filter_filter]
    refine List.filter_congr (fun m hm => ?_)
    rw [matchesCriteria_merge c₁ c₂ h m]
    have hmem : decide (m ∈ List.filter (matchesCriteria c₂) ms) = matchesCriteria c₂ m := by
      cases hc : matchesCriteria c₂ m <;> simp [List.mem_filter, hm, hc]
    rw [hmem, Bool.and_comm]

/-- Witness for C4: the identity case on the demo catalog, and combining
the Monday day criterion with the evening time criterion equals the
intersection of the two single-criterion results. -/
theorem filterEngine_identity_and_intersection_witness :
    applyFilters demoCatalog noCriteria = demoCatalog.filter nameOK ∧
    applyFilters demoCatalog (mergeCriteria cDayMonday cTimeEvening) =
      (applyFilters demoCatalog cDayMonday).filter
        (fun m => m ∈ applyFilters demoCatalog cTimeEvening) :=
  ⟨filterEngine_identity_and_intersection.1 demoCatalog,
    filterEngine_identity_and_intersection.2 demoCatalog cDayMonday cTimeEvening
      ⟨Or.inr rfl, Or.inl rfl, Or.inl rfl, Or.inl rfl⟩⟩

/-! ## Lemmas about the location grouper -/

theorem findGroup_addToGroup_self (gs : List (Coord × List Meeting)) (c : Coord) (m : Meeting) :
    findGroup (addToGroup gs c m) c = some ((findGroup gs c).getD [] ++ [m]) := by
  induction gs with
  | nil => simp [addToGroup, findGroup]
  | cons g rest ih =>
    by_cases h : g.1 = c <;> simp [addToGroup, findGroup, h, ih]

theorem findGroup_addToGroup_ne (gs : List (Coord × List Meeting)) (c c' : Coord) (m : Meeting)
    (h : c' ≠ c) :
    findGroup (addToGroup gs c m) c' = findGroup gs c' := by
  have hcc : ¬(c = c') := fun e => h e.symm
  induction gs with
  | nil => simp [addToGroup, findGroup, hcc]
  | cons g rest ih =>
    by_cases hg : g.1 = c
    · simp [addToGroup, findGroup, hg, hcc]
    · by_cases hg' : g.1 = c' <;> simp [addToGroup, findGroup, hg, hg', ih, hcc, h]

theorem extendGroup_nil (o : Option (List Meeting)) : extendGroup o [] = o := by
  cases o <;> simp [extendGroup]

/-- The central accumulator lemma: folding the grouper step over a
meeting list extends each coordinate's group by exactly the mappable
meetings located there, in order. -/
theorem findGroup_foldl (ms : List Meeting) :
    ∀ (acc : List (Coord × List Meeting)) (c : Coord),
      findGroup (List.foldl groupStep acc ms) c = extendGroup (findGroup acc c) (locatedAt ms c) := by
  induction ms with
  | nil => intro acc c; simp [locatedAt, extendGroup_nil]
  | cons m rest ih =>
    intro acc c
    rw [List.foldl_cons, ih]
    by_cases hv : jsToLower m.type = "virtual"
    · cases hco : m.coordinates <;>
        simp [groupStep, hco, hv, locatedAt, List.filter_cons]
    · cases hco : m.coordinates with
      | none => simp [groupStep, hco, locatedAt, List.filter_cons]
      | some c₀ =>
        by_cases hc : c₀ = c
        · subst hc
          rw [show groupStep acc m = addToGroup acc c₀ m by simp [groupStep, hco, hv]]
          rw [findGroup_addToGroup_self]
          rw [show locatedAt (m :: rest) c₀ = m :: locatedAt rest c₀ by
            simp [locatedAt, List.filter_cons, hco, hv]]
          cases hf : findGroup acc c₀ <;> simp [extendGroup]
        · rw [show groupStep acc m = addToGroup acc c₀ m by simp [groupStep, hco, hv]]
          rw [findGroup_addToGroup_ne acc c₀ c m (fun e => hc e.symm)]
          rw [show locatedAt (m :: rest) c = locatedAt rest c by
            simp [locatedAt, List.filter_cons, hco, hc]]

/-- The grouper's lookup, characterized: a coordinate has a group exactly
when some mappable meeting sits there, and its members are those meetings
in catalog order. -/
theorem findGroup_group (ms : List Meeting) (c : Coord) :
    findGroup (groupMeetingsByLocation ms) c =
      if locatedAt ms c = [] then none else some (locatedAt ms c) := by
  rw [groupMeetingsByLocation, findGroup_foldl]
  simp [findGroup, extendGroup]

theorem findGroup_eq_none_iff (gs : List (Coord × List Meeting)) (c : Coord) :
    findGroup gs c = none ↔ c ∉ gs.map Prod.fst := by
  induction gs with
  | nil => simp [findGroup]
  | cons g rest ih =>
    by_cases h : g.1 = c
    · subst h
      simp [findGroup]
    · have h' : ¬(c = g.1) := fun e => h e.symm
      simp [findGroup, h, h', ih]

theorem addToGroup_keys (gs : List (Coord × List Meeting)) (c : Coord) (m : Meeting) :
    (addToGroup gs c m).map Prod.fst =
      if (findGroup gs c).isSome then gs.map Prod.fst else gs.map Prod.fst ++ [c] := by
  induction gs with
  | nil => simp [addToGroup, findGroup]
  | cons g rest ih =>
    by_cases h : g.1 = c
    · simp [addToGroup, findGroup, h, ih]
    · by_cases h2 : (findGroup rest c).isSome <;>
        simp [addToGroup, findGroup, h, h2, ih]

theorem groupStep_keys_nodup (gs : List (Coord × List Meeting)) (m : Meeting)
    (h : (gs.map Prod.fst).Nodup) : ((groupStep gs m).map Prod.fst).Nodup := by
  cases hco : m.coordinates with
  | none => simpa [groupStep, hco]
  | some c₀ =>
    by_cases hv : jsToLower m.type = "virtual"
    · simpa [groupStep, hco, hv]
    · rw [show groupStep gs m = addToGroup gs c₀ m by simp [groupStep, hco, hv]]
      rw [addToGroup_keys]
      by_cases hf : (findGroup gs c₀).isSome
      · simpa [hf]
      · have hne : findGroup gs c₀ = none := Option.not_isSome_iff_eq_none.mp hf
        have hmem : c₀ ∉ gs.map Prod.fst := (findGroup_eq_none_iff gs c₀).mp hne
        simp [hf, List.nodup_append, h, hmem]

theorem foldl_keys_nodup (ms : List Meeting) :
    ∀ acc : List (Coord × List Meeting),
      (acc.map Prod.fst).Nodup → ((List.foldl groupStep acc ms).map Prod.fst).Nodup := by
  induction ms with
  | nil => intro acc h; simpa
  | cons m rest ih =>
    intro acc h
    rw [List.foldl_cons]
    exact ih _ (groupStep_keys_nodup acc m h)

theorem group_keys_nodup (ms : List Meeting) :
    ((groupMeetingsByLocation ms).map Prod.fst).Nodup :=
  foldl_keys_nodup ms [] (by simp)

theorem findGroup_of_mem (gs : List (Coord × List Meeting))
    (h : (gs.map Prod.fst).Nodup) (g : Coord × List Meeting) (hg : g ∈ gs) :
    findGroup gs g.1 = some g.2 := by
  induction gs with
  | nil => cases hg
  | cons g₀ rest ih =>
    rw [List.map_cons] at h
    rcases List.mem_cons.mp hg with hg | hg
    · subst hg; simp [findGroup]
    · have hmem : g.1 ∈ rest.map Prod.fst := List.mem_map.mpr ⟨g, hg, rfl⟩
      have hne : g₀.1 ≠ g.1 := by
        intro e
        apply (List.nodup_cons.mp h).1
        rw [e]
        exact hmem
      simp [findGroup, hne]
      exact ih (List.nodup_cons.mp h).2 hg

/-- Every emitted group's members are exactly the mappable meetings at
its coordinates, in catalog order. -/
theorem group_members_eq (ms : List Meeting) (g : Coord × List Meeting)
    (hg : g ∈ groupMeetingsByLocation ms) : g.2 = locatedAt ms g.1 := by
  have h1 := findGroup_of_mem _ (group_keys_nodup ms) g hg
  rw [findGroup_group ms g.1] at h1
  by_cases he : locatedAt ms g.1 = []
  · rw [if_pos he] at h1; cases h1
  · rw [if_neg he] at h1; exact (Option.some.inj h1).symm

/-! ## Claim theorem about the location grouper -/

/-- C5 (confirmed): the grouper emits at most one group per coordinate
pair (keys are nodup); a coordinate has a group exactly when a
non-virtual meeting with those coordinates exists, and its members are
exactly those meetings in catalog order (so two eligible meetings with
equal coordinates share one group); every member of any group has the
group's coordinates and a non-virtual type, hence a virtual meeting
appears in no group even when it carries coordinates. -/
theorem grouper_correct (ms : List Meeting) :
    ((groupMeetingsByLocation ms).map Prod.fst).Nodup ∧
    (∀ c : Coord, findGroup (groupMeetingsByLocation ms) c =
      if locatedAt ms c = [] then none else some (locatedAt ms c)) ∧
    (∀ g ∈ groupMeetingsByLocation ms, g.2 = locatedAt ms g.1) ∧
    (∀ g ∈ groupMeetingsByLocation ms, ∀ m ∈ g.2,
      m.coordinates = some g.1 ∧ jsToLower m.type ≠ "virtual") := by
  refine ⟨group_keys_nodup ms, findGroup_group ms, group_members_eq ms, ?_⟩
  intro g hg m hm
  rw [group_members_eq ms g hg] at hm
  have := List.mem_filter.mp hm
  simpa [locatedAt] using this.2

/-- Witness for C5: on the demo catalog the two in-person meetings at
(1, 2) form one group in catalog order, the virtual meeting with the same
coordinates is absent, and the group keys are distinct. -/
theorem grouper_correct_witness :
    findGroup (groupMeetingsByLocation demoCatalog) (1, 2) = some [demoA, demoB] ∧
    ((groupMeetingsByLocation demoCatalog).map Prod.fst).Nodup := by
  constructor
  · have h := (grouper_correct demoCatalog).2.1 (1, 2)
    rw [h]
    decide
  · exact (grouper_correct demoCatalog).1

/-! ## Lemmas about the batch geocoding pipeline -/

/-- A built meeting with a non-empty address carries exactly the joined
cache entry for its own (untouched) address string. -/
theorem attachCoordinates_mem (cache : Cache) (parsed : List Meeting) (m : Meeting)
    (h : m ∈ attachCoordinates cache parsed) (hne : m.address ≠ "") :
    m.coordinates = (cacheLookup cache m.address).join := by
  obtain ⟨n, hn, rfl⟩ := List.mem_map.mp h
  by_cases hna : n.address ≠ ""
  · simp [hna]
  · rw [if_neg hna] at hne
    exact absurd hne hna

/-! ## Claim theorems about geocoding deduplication (C1) -/

/-- C1 is false on the code: `addressesToGeocode` keeps one entry per
meeting (no deduplication before `Promise.all`), and every call in the
batch checks the still-unwritten cache before any response arrives, so
two meetings sharing the uncached address "1 Main St" trigger two
external lookups in one session, not at most one. -/
theorem resolver_dedup_counterexample :
    (dupRows.filterMap validateMeeting).map Meeting.address = ["1 Main St", "1 Main St"] ∧
    lookupCount [] (dupRows.filterMap validateMeeting) "1 Main St" = 2 := by
  constructor <;> decide

/-- C1 (corrected): all meetings sharing an identical non-empty address
do receive the same resolved coordinates (they read the same final cache
entry), and an address cached before the load is never looked up; but for
an uncached address the batch issues exactly one external lookup per
meeting bearing it - duplicates included - not at most one per address. -/
theorem resolver_dedup_amended (svc : String → Option Coord) (cache : Cache)
    (rows : List (Option RawRow)) :
    (∀ m₁ m₂, m₁ ∈ (buildCatalog svc cache rows).1 → m₂ ∈ (buildCatalog svc cache rows).1 →
      m₁.address = m₂.address → m₁.address ≠ "" → m₁.coordinates = m₂.coordinates) ∧
    (∀ a, cacheHas cache a = true → lookupCount cache (rows.filterMap validateMeeting) a = 0) ∧
    (∀ a, a ≠ "" → cacheHas cache a = false →
      lookupCount cache (rows.filterMap validateMeeting) a =
        (rows.filterMap validateMeeting).countP (fun m => m.address == a)) := by
  refine ⟨?_, ?_, ?_⟩
  · intro m₁ m₂ h₁ h₂ heq hne
    have e₁ := attachCoordinates_mem _ _ m₁ h₁ hne
    have e₂ := attachCoordinates_mem _ _ m₂ h₂ (heq ▸ hne)
    rw [e₁, e₂, heq]
  · intro a ha
    rw [lookupCount, List.count_eq_zero]
    intro hmem
    obtain ⟨m, hm, rfl⟩ := List.mem_map.mp hmem
    have hp := (List.mem_filter.mp hm).2
    simp only [decide_eq_true_eq] at hp
    exact hp.2 ha
  · intro a hane hac
    rw [lookupCount, addressesToGeocode, List.count_eq_countP, List.countP_map,
      List.countP_filter]
    refine List.countP_congr (fun m _ => ?_)
    by_cases haddr : m.address = a
    · simp [Function.comp, haddr, hane, hac]
    · simp [Function.comp, haddr]

/-- Witness for the amended C1: the duplicated "1 Main St" rows get one
lookup per occurrence when uncached, none when precached, and the two
built meetings share their resolved coordinates. -/
theorem resolver_dedup_amended_witness :
    lookupCount [] (dupRows.filterMap validateMeeting) "1 Main St" =
      (dupRows.filterMap validateMeeting).countP (fun m => m.address == "1 Main St") ∧
    lookupCount [("1 Main St", some (1, 2))] (dupRows.filterMap validateMeeting) "1 Main St" = 0 ∧
    mDupA.coordinates = mDupB.coordinates := by
  have h₀ := resolver_dedup_amended (fun _ => some (1, 2)) [] dupRows
  have h₁ := resolver_dedup_amended (fun _ => some (1, 2)) [("1 Main St", some (1, 2))] dupRows
  refine ⟨h₀.2.2 "1 Main St" (by decide) (by decide),
    h₁.2.1 "1 Main St" (by decide),
    h₀.1 mDupA mDupB (by decide) (by decide) (by decide) (by decide)⟩

/-! ## Lemmas about the address cleanup scanner -/

theorem dropWS_length (l : List Char) : (dropWS l).length ≤ l.length := by
  induction l with
  | nil => simp [dropWS]
  | cons c cs ih =>
    by_cases h : isJsWS c
    · simp only [dropWS, List.dropWhile_cons, h, if_true]
      exact Nat.le_succ_of_le ih
    · simp [dropWS, List.dropWhile_cons, h]

theorem matchCI_length (p : List Char) :
    ∀ (l r : List Char), matchCI p l = some r → r.length ≤ l.length := by
  induction p with
  | nil =>
    intro l r h
    simp only [matchCI, Option.some.injEq] at h
    subst h
    exact Nat.le_refl _
  | cons p ps ih =>
    intro l r h
    cases l with
    | nil => cases h
    | cons c cs =>
      simp only [matchCI] at h
      by_cases hc : c.toLower = p.toLower
      · rw [if_pos hc] at h
        exact Nat.le_succ_of_le (ih cs r h)
      · rw [if_neg hc] at h
        cases h

theorem matchWSplus_length (l r : List Char) (h : matchWSplus l = some r) :
    r.length ≤ l.length := by
  cases l with
  | nil => cases h
  | cons c cs =>
    simp only [matchWSplus] at h
    by_cases hc : isJsWS c
    · rw [if_pos hc] at h
      cases h
      exact Nat.le_succ_of_le (dropWS_length cs)
    · rw [if_neg hc] at h
      cases h

theorem matchExactDigits_length (n : ℕ) :
    ∀ (l r : List Char), matchExactDigits n l = some r → r.length ≤ l.length := by
  induction n with
  | zero =>
    intro l r h
    simp only [matchExactDigits, Option.some.injEq] at h
    subst h
    exact Nat.le_refl _
  | succ n ih =>
    intro l r h
    cases l with
    | nil => cases h
    | cons c cs =>
      simp only [matchExactDigits] at h
      by_cases hc : c.isDigit
      · rw [if_pos hc] at h
        exact Nat.le_succ_of_le (ih cs r h)
      · rw [if_neg hc] at h
        cases h

theorem matchOptDash4_length (l r : List Char) (h : matchOptDash4 l = some r) :
    r.length ≤ l.length := by
  cases l with
  | nil =>
    simp only [matchOptDash4, Option.some.injEq] at h
    subst h
    exact Nat.le_refl _
  | cons c cs =>
    simp only [matchOptDash4] at h
    by_cases hc : c = '-'
    · rw [if_pos hc] at h
      cases h4 : matchExactDigits 4 cs with
      | some l₆ =>
        rw [h4] at h
        cases h
        exact Nat.le_succ_of_le (matchExactDigits_length 4 cs _ h4)
      | none =>
        rw [h4] at h
        cases h
        exact Nat.le_refl _
    · rw [if_neg hc] at h
      cases h
      exact Nat.le_refl _

theorem matchZipTail_length (tok l r : List Char) (h : matchZipTail tok l = some r) :
    r.length ≤ l.length := by
  unfold matchZipTail at h
  cases h1 : matchCI tok (dropWS l) with
  | none => rw [h1, Option.none_bind] at h; cases h
  | some l₂ =>
    rw [h1, Option.some_bind] at h
    have e1 : l₂.length ≤ l.length :=
      Nat.le_trans (matchCI_length tok _ l₂ h1) (dropWS_length l)
    cases h2 : matchWSplus l₂ with
    | none => rw [h2, Option.none_bind] at h; cases h
    | some l₃ =>
      rw [h2, Option.some_bind] at h
      have e2 := Nat.le_trans (matchWSplus_length l₂ l₃ h2) e1
      cases h3 : matchExactDigits 5 l₃ with
      | none => rw [h3, Option.none_bind] at h; cases h
      | some l₄ =>
        rw [h3, Option.some_bind] at h
        have e3 := Nat.le_trans (matchExactDigits_length 5 l₃ l₄ h3) e2
        exact Nat.le_trans (matchOptDash4_length l₄ r h) e3

/-- The scanner ignores its fuel as long as the fuel covers the input
length. -/
theorem replaceZipAll_fuel (tok : List Char) :
    ∀ (f₁ f₂ : ℕ) (l : List Char), l.length ≤ f₁ → l.length ≤ f₂ →
      replaceZipAll tok f₁ l = replaceZipAll tok f₂ l := by
  intro f₁
  induction f₁ with
  | zero =>
    intro f₂ l h1 _
    have he : l = [] := List.length_eq_zero.mp (Nat.le_zero.mp h1)
    subst he
    cases f₂ <;> simp [replaceZipAll]
  | succ f ih =>
    intro f₂ l h1 h2
    cases l with
    | nil => cases f₂ <;> simp [replaceZipAll]
    | cons c cs =>
      cases f₂ with
      | zero => exact absurd h2 (by simp)
      | succ f₂' =>
        have hcs : cs.length ≤ f := by
          simp only [List.length_cons] at h1
          omega
        have hcs2 : cs.length ≤ f₂' := by
          simp only [List.length_cons] at h2
          omega
        simp only [replaceZipAll]
        by_cases hc : c = ','
        · rw [if_pos hc, if_pos hc]
          cases hm : matchZipTail tok cs with
          | some rest =>
            simp only [hm]
            have hrest := matchZipTail_length tok cs rest hm
            exact ih f₂' rest (Nat.le_trans hrest hcs) (Nat.le_trans hrest hcs2)
          | none =>
            simp only [hm]
            exact congrArg (c :: ·) (ih f₂' cs hcs hcs2)
        · rw [if_neg hc, if_neg hc]
          exact congrArg (c :: ·) (ih f₂' cs hcs hcs2)

/-- When no match starts inside the prefix `s`, the scanner passes `s`
through untouched and continues on `t`. -/
theorem replaceZipAll_append (tok : List Char) :
    ∀ (s t : List Char), zipFreePrefix tok s t = true →
      replaceZipAll tok (s ++ t).length (s ++ t) = s ++ replaceZipAll tok t.length t := by
  intro s
  induction s with
  | nil => intro t _; simp
  | cons c cs ih =>
    intro t h
    simp only [zipFreePrefix, Bool.and_eq_true] at h
    obtain ⟨h1, h2⟩ := h
    rw [List.cons_append, List.length_cons]
    simp only [replaceZipAll]
    by_cases hc : c = ','
    · have hnone : matchZipTail tok (cs ++ t) = none := by
        rw [if_pos hc] at h1
        exact Option.isNone_iff_eq_none.mp h1
      rw [if_pos hc]
      simp only [hnone]
      rw [ih t h2]
      rfl
    · rw [if_neg hc]
      rw [ih t h2]
      rfl

/-- A string with no match anywhere is a fixed point of the scanner. -/
theorem replaceZipAll_fixed (tok l : List Char) (h : zipFreePrefix tok l [] = true) :
    replaceZipAll tok l.length l = l := by
  have e := replaceZipAll_append tok l [] h
  simpa [replaceZipAll] using e

/-- When the end-anchored pattern matches nowhere inside the prefix `s`,
the trailing-strip passes `s` through and continues on `t`. -/
theorem stripTrail_append (tok : List Char) :
    ∀ (s t : List Char), trailFreePrefix tok s t = true →
      stripTrail tok (s ++ t) = s ++ stripTrail tok t := by
  intro s
  induction s with
  | nil => intro t _; simp
  | cons c cs ih =>
    intro t h
    simp only [trailFreePrefix, Bool.and_eq_true] at h
    obtain ⟨h1, h2⟩ := h
    rw [List.cons_append]
    simp only [stripTrail]
    by_cases hc : c = ','
    · have hfalse : matchTrailTok tok (cs ++ t) = false := by
        rw [if_pos hc] at h1
        simpa using h1
      rw [if_pos hc, hfalse]
      simp only [Bool.false_eq_true, if_false]
      rw [ih t h2]
      rfl
    · rw [if_neg hc]
      rw [ih t h2]
      rfl

/-- A string the end-anchored pattern never matches is a fixed point of
the trailing-strip. -/
theorem stripTrail_fixed (tok l : List Char) (h : trailFreePrefix tok l [] = true) :
    stripTrail tok l = l := by
  have e := stripTrail_append tok l [] h
  simpa [stripTrail] using e

/-- The else-branch of `cleanAddressDisplay`, spelled out. -/
theorem cleanAddressDisplay_eq (address : String) (h : address ≠ "") :
    cleanAddressDisplay address =
      String.mk (trimChars (stripTrail ['M', 'a', 'i', 'n', 'e'] (stripTrail ['M', 'E']
        (replaceZipAll ['M', 'a', 'i', 'n', 'e']
          (replaceZipAll ['M', 'E'] address.data.length address.data).length
          (replaceZipAll ['M', 'E'] address.data.length address.data))))) := by
  unfold cleanAddressDisplay
  rw [if_neg h]

/-! ## Claim theorems about the address display cleanup (C9) -/

/-- C9 is false on the code: the helper only knows the two Maine
spellings; a trailing two-letter-state-plus-zip suffix of any other state
is left untouched, here ", NH 03301". -/
theorem cleanAddress_counterexample :
    cleanAddressDisplay "12 Oak St, Concord, NH 03301" = "12 Oak St, Concord, NH 03301" ∧
    "12 Oak St, Concord, NH 03301" ≠ ("12 Oak St, Concord" : String) := by
  constructor <;> decide

/-- C9 (corrected): the helper strips only the Maine spellings - a
trailing ", ME <zip>" (and, per the concrete conjuncts, ", Maine <zip>"
with 5+4 code and a bare trailing ", ME") - while an address containing
no Maine pattern anywhere is merely trimmed (so other states' suffixes
survive); and geocoding never sees the cleanup: every built meeting's
coordinates come from the cache keyed by its untouched original address
string. -/
theorem cleanAddress_amended :
    (∀ s : String,
      zipFreePrefix ['M', 'E'] s.data (", ME 04032").data = true →
      zipFreePrefix ['M', 'a', 'i', 'n', 'e'] s.data [] = true →
      trailFreePrefix ['M', 'E'] s.data [] = true →
      trailFreePrefix ['M', 'a', 'i', 'n', 'e'] s.data [] = true →
      cleanAddressDisplay (s ++ ", ME 04032") = jsTrim s) ∧
    cleanAddressDisplay "40 Main St, Freeport, Maine 04032-1234" = "40 Main St, Freeport" ∧
    cleanAddressDisplay "5 Elm St, Portland, ME" = "5 Elm St, Portland" ∧
    (∀ addr : String, maineFree addr = true → cleanAddressDisplay addr = jsTrim addr) ∧
    (∀ (svc : String → Option Coord) (cache : Cache) (rows : List (Option RawRow))
        (m : Meeting), m ∈ (buildCatalog svc cache rows).1 → m.address ≠ "" →
      m.coordinates = (cacheLookup (buildCatalog svc cache rows).2 m.address).join) := by
  refine ⟨?_, by decide, by decide, ?_, ?_⟩
  · intro s h1 h2 h3 h4
    have hne : s ++ ", ME 04032" ≠ "" := by
      intro he
      have hd := congrArg String.data he
      rw [String.data_append] at hd
      exact absurd (List.append_eq_nil.mp hd).2 (by decide)
    rw [cleanAddressDisplay_eq _ hne, String.data_append]
    rw [replaceZipAll_append ['M', 'E'] s.data (", ME 04032").data h1]
    have e1 : replaceZipAll ['M', 'E'] (", ME 04032").data.length (", ME 04032").data = [] := by
      decide
    rw [e1, List.append_nil]
    rw [replaceZipAll_fixed ['M', 'a', 'i', 'n', 'e'] s.data h2]
    rw [stripTrail_fixed ['M', 'E'] s.data h3]
    rw [stripTrail_fixed ['M', 'a', 'i', 'n', 'e'] s.data h4]
    rfl
  · intro addr h
    by_cases he : addr = ""
    · subst he; decide
    · rw [maineFree] at h
      obtain ⟨⟨⟨h1, h2⟩, h3⟩, h4⟩ := by
        simpa [Bool.and_eq_true] using h
      rw [cleanAddressDisplay_eq _ he]
      rw [replaceZipAll_fixed _ _ h1, replaceZipAll_fixed _ _ h2,
        stripTrail_fixed _ _ h3, stripTrail_fixed _ _ h4]
      rfl
  · intro svc cache rows m hm hne
    exact attachCoordinates_mem _ _ m hm hne

/-- Witness for the amended C9: the Maine zip suffix is stripped from a
concrete clean prefix, a New Hampshire address is merely trimmed, and a
built duplicate-address meeting's coordinates come from the cache at its
original address. -/
theorem cleanAddress_amended_witness :
    cleanAddressDisplay ("40 Main St, Freeport" ++ ", ME 04032") = jsTrim "40 Main St, Freeport" ∧
    cleanAddressDisplay "12 Oak St, Concord, NH 03301" = jsTrim "12 Oak St, Concord, NH 03301" ∧
    mDupA.coordinates =
      (cacheLookup (buildCatalog (fun _ => some (1, 2)) [] dupRows).2 mDupA.address).join := by
  have h := cleanAddress_amended
  exact ⟨h.1 "40 Main St, Freeport" (by decide) (by decide) (by decide) (by decide),
    h.2.2.2.1 "12 Oak St, Concord, NH 03301" (by decide),
    h.2.2.2.2 (fun _ => some (1, 2)) [] dupRows mDupA (by decide) (by decide)⟩

end FindAMeeting
